import Mathlib

/-
Shallow embedding of the lowering engine in src/Compiler.py.

The file defines two classes named PyASMCompiler; the second definition
(lines 204-359) shadows the first, so the second class is the program this
development embeds.  The embedding covers the constructs the verified
properties concern: Module bodies of FunctionDef nodes, Assign / Return /
If / bare-expression statements, and Constant / Name / BinOp / Compare /
Call expressions.

Modelling decisions, each taken from the source:
* The visitor state (self.assembly_code, self.local_variables,
  self.global_variables, self.current_function) is the structure CompState.
  The dict self.variables is initialized in the constructor of the second
  class but never read or written afterwards, so it is omitted.
* ast.NodeVisitor dispatch: a node kind with a visit_ method runs that
  method; any other node kind falls back to generic_visit, which silently
  visits the AST children in field order and emits nothing of its own.
  Thus Call (no visitor) lowers as: visit the func child, then each arg
  in order; Constant (no visitor in the second class) emits nothing; a
  bare expression statement (ast.Expr, no visitor) visits its value.
* visit_If and visit_While call self.generic_visit(node.body) where
  node.body is a plain Python list.  ast.iter_fields reads node._fields,
  which a list does not have, so that call raises AttributeError and
  compile returns no text.  This is modelled by Except: visit_If performs
  its appends up to the jz line and then produces
  CompileError.attributeError carrying the partial state.
* Python set insertion is modelled on lists as append-if-absent; the
  source never iterates over the sets, so only membership matters.
* visit_Compare reads node.ops[0] and never visits the operand subtrees;
  the model keeps the operand fields on the node but ignores them, as the
  source does.  The modelled comparison operators are Gt, Lt, Eq, the ones
  the source recognizes.
* FunctionDef arguments are carried on the node but produce no emission
  and are never added to local_variables (arg nodes have no visitor and
  no AST children that emit), exactly as in the source.
-/

namespace PyASM

/-- Binary operator tags handled by visit_BinOp (lines 274-293). -/
inductive BinOpKind where
  | add
  | sub
  | mult
  | div
  | mod

/-- Comparison operator tags handled by visit_Compare (lines 93-111 of the
first class, 93ff; second class identical at lines 93-111 / 295ff region). -/
inductive CmpOpKind where
  | gt
  | lt
  | eq

/-- Expression nodes.  Call is a node kind with no visit_ method in the
source; it is lowered only through generic_visit. -/
inductive Expr where
  | constant (n : Int)
  | name (id : String)
  | binOp (op : BinOpKind) (left right : Expr)
  | compare (op : CmpOpKind) (left right : Expr)
  | call (func : Expr) (args : List Expr)

/-- Statement nodes.  exprStmt is the ast.Expr statement wrapper, which has
no visit_ method and is lowered through generic_visit. -/
inductive Stmt where
  | assign (targets : List String) (value : Expr)
  | ret (value : Option Expr)
  | ifStmt (test : Expr) (body orelse : List Stmt)
  | exprStmt (value : Expr)

/-- A function definition node: name, argument names, body statements. -/
structure FunctionDef where
  name : String
  args : List String
  body : List Stmt

/-- The mutable visitor state of the second PyASMCompiler class. -/
structure CompState where
  code : List String
  localVariables : List String
  globalVariables : List String
  currentFunction : Option String
deriving DecidableEq

/-- self.builtins, set in the constructor (line 211). -/
def builtins : List String := ["True", "False", "None"]

/-- The constructor state (lines 205-211): assembly_code starts as the
one-element list holding the section header. -/
def initState : CompState :=
  { code := ["section .text"]
    localVariables := []
    globalVariables := []
    currentFunction := none }

/-- self.assembly_code.append(line). -/
def emit (s : CompState) (line : String) : CompState :=
  { s with code := s.code ++ [line] }

/-- A run of consecutive appends. -/
def emitAll (s : CompState) (lines : List String) : CompState :=
  { s with code := s.code ++ lines }

/-- The AttributeError raised when generic_visit receives a plain list
(visit_If, line 300).  It carries the visitor state at the raise point:
the mutations already performed on the instance stand, but compile
propagates the exception and returns no text. -/
inductive CompileError where
  | attributeError (state : CompState)
deriving DecidableEq

/-- visit_Name (lines 247-262): builtin check, then local, then global,
else insert into global_variables; each branch appends one comment line. -/
def visitName (id : String) (s : CompState) : CompState :=
  if id ∈ builtins then
    emit s ("    ; Built-in " ++ id)
  else if id ∈ s.localVariables then
    emit s ("    ; Local variable " ++ id)
  else if id ∈ s.globalVariables then
    emit s ("    ; Global variable " ++ id)
  else
    emit { s with globalVariables := s.globalVariables ++ [id] }
      ("    ; Unknown variable " ++ id ++ " (adding to globals)")

/-- The classification visit_Name performs, read off the branch order of
lines 249-262: builtin first, then local, then global, with the unknown
case classified global (the identifier is inserted into the global set). -/
inductive NameClass where
  | builtinConstant
  | localVar
  | globalVar
deriving DecidableEq

/-- Branch order of visit_Name as a classification function. -/
def classifyName (s : CompState) (id : String) : NameClass :=
  if id ∈ builtins then NameClass.builtinConstant
  else if id ∈ s.localVariables then NameClass.localVar
  else if id ∈ s.globalVariables then NameClass.globalVar
  else NameClass.globalVar

/-- The operator instructions of visit_BinOp (lines 281-293). -/
def binOpInstrs : BinOpKind → List String
  | BinOpKind.add => ["    add rax, rbx"]
  | BinOpKind.sub => ["    sub rax, rbx"]
  | BinOpKind.mult => ["    imul rax, rbx"]
  | BinOpKind.div => ["    cqo", "    idiv rbx"]
  | BinOpKind.mod => ["    cqo", "    idiv rbx", "    mov rax, rdx"]

/-- The conditional jump of visit_Compare for each recognized operator. -/
def cmpJump : CmpOpKind → String
  | CmpOpKind.gt => "    jg comparison_true"
  | CmpOpKind.lt => "    jl comparison_true"
  | CmpOpKind.eq => "    je comparison_true"

/-- The literal tail every visit_Compare call emits (lines 105-111):
fixed label text, identical at every call site. -/
def compareTail : List String :=
  ["    jmp comparison_false", "comparison_true:", "    mov rax, 1",
   "    jmp end_comparison", "comparison_false:", "    mov rax, 0",
   "end_comparison:"]

mutual

/-- Expression dispatch of self.visit.  Constant: no visitor, generic_visit
emits nothing.  Name: visit_Name.  BinOp: visit_BinOp (lines 274-293),
left operand first, then the scratch move, then the right operand, then
the operator instructions.  Compare: visit_Compare, operands never
visited.  Call: no visitor, generic_visit visits func then the args. -/
def visitExpr : Expr → CompState → CompState
  | Expr.constant _, s => s
  | Expr.name id, s => visitName id s
  | Expr.binOp op l r, s =>
      emitAll (visitExpr r (emit (visitExpr l s) "    mov rbx, rax")) (binOpInstrs op)
  | Expr.compare op _ _, s =>
      emitAll s (["    cmp rax, rcx", cmpJump op] ++ compareTail)
  | Expr.call f args, s => visitExprList args (visitExpr f s)

/-- generic_visit over a list-valued AST field: visit each element. -/
def visitExprList : List Expr → CompState → CompState
  | [], s => s
  | e :: rest, s => visitExprList rest (visitExpr e s)

end

/-- Lines 234-235 of visit_Assign: insert the target into local_variables
when absent. -/
def addLocal (x : String) (s : CompState) : CompState :=
  if x ∈ s.localVariables then s
  else { s with localVariables := s.localVariables ++ [x] }

/-- Lines 237-245 of visit_Assign: the value handling for one target.
Constant and Name values emit one mov line without visiting the value;
a BinOp value is visited and then stored; any other value shape matches
no branch and emits nothing. -/
def assignValueCode (target : String) (value : Expr) (s : CompState) : CompState :=
  match value with
  | Expr.constant n => emit s ("    mov " ++ target ++ ", " ++ toString n)
  | Expr.name id => emit s ("    mov " ++ target ++ ", " ++ id)
  | Expr.binOp op l r =>
      emit (visitExpr (Expr.binOp op l r) s) ("    mov " ++ target ++ ", rax")
  | _ => s

/-- The body of the per-target loop of visit_Assign (lines 231-245):
insert the target into the local set, then handle the value. -/
def visitAssignTarget (value : Expr) (s : CompState) (target : String) : CompState :=
  assignValueCode target value (addLocal target s)

/-- visit_Assign (lines 229-245): the value handling sits inside the loop
over targets, so it runs once per target. -/
def visitAssign (targets : List String) (value : Expr) (s : CompState) : CompState :=
  targets.foldl (visitAssignTarget value) s

/-- The value handling of visit_Return (lines 266-271): BinOp values are
visited, Constant and Name values emit one mov line without being visited,
any other value shape (including a bare return) emits nothing. -/
def returnValueCode (value : Option Expr) (s : CompState) : CompState :=
  match value with
  | some (Expr.binOp op l r) => visitExpr (Expr.binOp op l r) s
  | some (Expr.constant n) => emit s ("    mov rax, " ++ toString n)
  | some (Expr.name id) => emit s ("    mov rax, " ++ id)
  | _ => s

/-- visit_Return (lines 264-272): the value handling, then the ret line. -/
def visitReturn (value : Option Expr) (s : CompState) : CompState :=
  emit (returnValueCode value s) "    ret"

mutual

/-- Statement dispatch.  visit_If (lines 295-305) appends the comment,
visits the test, appends the jz line, and then calls generic_visit on the
plain statement list, which raises AttributeError before any body
statement is visited and before the else_block label line is appended. -/
def visitStmt : Stmt → CompState → Except CompileError CompState
  | Stmt.assign targets value, s => Except.ok (visitAssign targets value s)
  | Stmt.ret value, s => Except.ok (visitReturn value s)
  | Stmt.ifStmt test _ _, s =>
      Except.error (CompileError.attributeError
        (emit (visitExpr test (emit s "    ; If condition")) "    jz else_block"))
  | Stmt.exprStmt value, s => Except.ok (visitExpr value s)

/-- generic_visit over a statement list: visit each statement in order,
propagating a raised exception. -/
def visitStmtList : List Stmt → CompState → Except CompileError CompState
  | [], s => Except.ok s
  | st :: rest, s =>
      match visitStmt st s with
      | Except.ok s => visitStmtList rest s
      | Except.error e => Except.error e

end

/-- The state of visit_FunctionDef just before the body statements are
visited (lines 215-222): the four prologue lines are appended,
current_function is set, and local_variables is cleared. -/
def functionEntry (f : FunctionDef) (s : CompState) : CompState :=
  { emitAll s ["global " ++ f.name, f.name ++ ":", "    push rbp",
               "    mov rbp, rsp"] with
    currentFunction := some f.name
    localVariables := [] }

/-- visit_FunctionDef (lines 213-227): prologue, cleared local scope, body
via generic_visit (name and argument fields emit nothing), epilogue. -/
def visitFunctionDef (f : FunctionDef) (s : CompState) : Except CompileError CompState :=
  match visitStmtList f.body (functionEntry f s) with
  | Except.ok s =>
      Except.ok { emitAll s ["    pop rbp", "    ret"] with currentFunction := none }
  | Except.error e => Except.error e

/-- The Module node has no visitor: generic_visit visits each top-level
FunctionDef in order. -/
def visitModule : List FunctionDef → CompState → Except CompileError CompState
  | [], s => Except.ok s
  | f :: rest, s =>
      match visitFunctionDef f s with
      | Except.ok s => visitModule rest s
      | Except.error e => Except.error e

/-- compile (lines 336-340) up to the final join: the instruction line
list after visiting the whole module from the constructor state. -/
def compileList (p : List FunctionDef) : Except CompileError (List String) :=
  Except.map (fun s => s.code) (visitModule p initState)

/-- The join performed by str.join with a newline separator. -/
def joinLines : List String → String
  | [] => ""
  | [l] => l
  | l :: rest => l ++ "\n" ++ joinLines rest

/-- compile (lines 336-340): parse is the external boundary; the model
takes the parsed module and returns the joined text, propagating the
exception when one is raised during the visit. -/
def compile (p : List FunctionDef) : Except CompileError String :=
  Except.map (fun s => joinLines s.code) (visitModule p initState)

/-- apply_vcal (lines 349-353): the method body is pass, so the
instruction sequence is unchanged. -/
def applyVcal (code : List String) : List String := code

/-- apply_lpit (lines 355-359): the method body is pass, so the
instruction sequence is unchanged. -/
def applyLpit (code : List String) : List String := code

/-- optimize (lines 342-347): apply_vcal then apply_lpit. -/
def optimize (code : List String) : List String := applyLpit (applyVcal code)

/-- The targets inserted into local_variables by the top-level Assign
statements of a statement list.  Statements nested under If never run
their insertions: visit_If raises before visiting its body. -/
def assignedTargets : List Stmt → List String
  | [] => []
  | Stmt.assign targets _ :: rest => targets ++ assignedTargets rest
  | _ :: rest => assignedTargets rest

/-- The lines a lowering step appends beyond the code already present. -/
def emittedBy (f : CompState → CompState) (s : CompState) : List String :=
  List.drop s.code.length (f s).code

/-- A unit with two Compare call sites and no If: one function whose body
is the two bare comparison statements a > b and c < d. -/
def twoCompareProgram : List FunctionDef :=
  [{ name := "f"
     args := []
     body := [Stmt.exprStmt (Expr.compare CmpOpKind.gt (Expr.name "a") (Expr.name "b")),
              Stmt.exprStmt (Expr.compare CmpOpKind.lt (Expr.name "c") (Expr.name "d"))] }]

/-- A unit with a single If statement: def f(): if c: return 1. -/
def ifProgram : List FunctionDef :=
  [{ name := "f"
     args := []
     body := [Stmt.ifStmt (Expr.name "c") [Stmt.ret (some (Expr.constant 1))] []] }]

/-- A unit containing a Call node, a node kind with no lowering rule:
def f(n): return n * fact(n). -/
def callProgram : List FunctionDef :=
  [{ name := "f"
     args := ["n"]
     body := [Stmt.ret (some (Expr.binOp BinOpKind.mult (Expr.name "n")
                (Expr.call (Expr.name "fact") [Expr.name "n"])))] }]

/-- def a(): x = 1 -/
def fA0 : FunctionDef :=
  { name := "a", args := [], body := [Stmt.assign ["x"] (Expr.constant 1)] }

/-- def b(): return x -/
def fB0 : FunctionDef :=
  { name := "b", args := [], body := [Stmt.ret (some (Expr.name "x"))] }

/-- The visitor state after lowering fA0 from the constructor state. -/
def s10 : CompState :=
  { code := ["section .text", "global a", "a:", "    push rbp", "    mov rbp, rsp",
             "    mov x, 1", "    pop rbp", "    ret"]
    localVariables := ["x"]
    globalVariables := []
    currentFunction := none }

/-- The visitor state after then lowering the body of fB0. -/
def s30 : CompState :=
  { code := ["section .text", "global a", "a:", "    push rbp", "    mov rbp, rsp",
             "    mov x, 1", "    pop rbp", "    ret",
             "global b", "b:", "    push rbp", "    mov rbp, rsp",
             "    mov rax, x", "    ret"]
    localVariables := []
    globalVariables := []
    currentFunction := some "b" }

theorem emit_code (s : CompState) (l : String) : (emit s l).code = s.code ++ [l] := rfl

theorem emitAll_code (s : CompState) (ls : List String) :
    (emitAll s ls).code = s.code ++ ls := rfl

theorem addLocal_code (x : String) (s : CompState) : (addLocal x s).code = s.code := by
  unfold addLocal
  split <;> rfl

theorem addLocal_globalVariables (x : String) (s : CompState) :
    (addLocal x s).globalVariables = s.globalVariables := by
  unfold addLocal
  split <;> rfl

theorem addLocal_currentFunction (x : String) (s : CompState) :
    (addLocal x s).currentFunction = s.currentFunction := by
  unfold addLocal
  split <;> rfl

theorem addLocal_self_mem (x : String) (s : CompState) :
    x ∈ (addLocal x s).localVariables := by
  unfold addLocal
  split
  · assumption
  · simp

theorem addLocal_mem (x y : String) (s : CompState)
    (hy : y ∈ (addLocal x s).localVariables) :
    y ∈ s.localVariables ∨ y = x := by
  unfold addLocal at hy
  split at hy
  · exact Or.inl hy
  · simpa using hy

theorem visitName_shape (id : String) (s : CompState) :
    ∃ t g, visitName id s =
      { code := s.code ++ t
        localVariables := s.localVariables
        globalVariables := g
        currentFunction := s.currentFunction } := by
  by_cases h1 : id ∈ builtins
  · exact ⟨["    ; Built-in " ++ id], s.globalVariables, by simp [visitName, h1, emit]⟩
  by_cases h2 : id ∈ s.localVariables
  · exact ⟨["    ; Local variable " ++ id], s.globalVariables,
      by simp [visitName, h1, h2, emit]⟩
  by_cases h3 : id ∈ s.globalVariables
  · exact ⟨["    ; Global variable " ++ id], s.globalVariables,
      by simp [visitName, h1, h2, h3, emit]⟩
  · exact ⟨["    ; Unknown variable " ++ id ++ " (adding to globals)"],
      s.globalVariables ++ [id], by simp [visitName, h1, h2, h3, emit]⟩

mutual

theorem visitExpr_shape : ∀ (e : Expr) (s : CompState),
    ∃ t g, visitExpr e s =
      { code := s.code ++ t
        localVariables := s.localVariables
        globalVariables := g
        currentFunction := s.currentFunction }
  | Expr.constant _, s => ⟨[], s.globalVariables, by simp [visitExpr]⟩
  | Expr.name id, s => by
      obtain ⟨t, g, h⟩ := visitName_shape id s
      exact ⟨t, g, by simp [visitExpr, h]⟩
  | Expr.binOp op l r, s => by
      obtain ⟨t1, g1, h1⟩ := visitExpr_shape l s
      obtain ⟨t2, g2, h2⟩ := visitExpr_shape r (emit (visitExpr l s) "    mov rbx, rax")
      refine ⟨t1 ++ "    mov rbx, rax" :: (t2 ++ binOpInstrs op), g2, ?_⟩
      simp only [visitExpr]
      rw [h2, h1]
      simp [emit, emitAll]
  | Expr.compare op l r, s =>
      ⟨["    cmp rax, rcx", cmpJump op] ++ compareTail, s.globalVariables,
        by simp [visitExpr, emitAll]⟩
  | Expr.call f args, s => by
      obtain ⟨t1, g1, h1⟩ := visitExpr_shape f s
      obtain ⟨t2, g2, h2⟩ := visitExprList_shape args (visitExpr f s)
      refine ⟨t1 ++ t2, g2, ?_⟩
      simp only [visitExpr]
      rw [h2, h1]
      simp

theorem visitExprList_shape : ∀ (es : List Expr) (s : CompState),
    ∃ t g, visitExprList es s =
      { code := s.code ++ t
        localVariables := s.localVariables
        globalVariables := g
        currentFunction := s.currentFunction }
  | [], s => ⟨[], s.globalVariables, by simp [visitExprList]⟩
  | e :: rest, s => by
      obtain ⟨t1, g1, h1⟩ := visitExpr_shape e s
      obtain ⟨t2, g2, h2⟩ := visitExprList_shape rest (visitExpr e s)
      refine ⟨t1 ++ t2, g2, ?_⟩
      simp only [visitExprList]
      rw [h2, h1]
      simp

end

/-- Emitted lines of a lowering step, recovered from the code extension. -/
theorem visitExpr_emittedBy (e : Expr) (s : CompState) :
    (visitExpr e s).code = s.code ++ emittedBy (visitExpr e) s := by
  obtain ⟨t, g, h⟩ := visitExpr_shape e s
  rw [emittedBy, h]
  simp

theorem assignValueCode_shape (target : String) (value : Expr) (s : CompState) :
    ∃ t g, assignValueCode target value s =
      { code := s.code ++ t
        localVariables := s.localVariables
        globalVariables := g
        currentFunction := s.currentFunction } := by
  cases value with
  | constant n =>
      exact ⟨["    mov " ++ target ++ ", " ++ toString n], s.globalVariables,
        by simp [assignValueCode, emit]⟩
  | name id =>
      exact ⟨["    mov " ++ target ++ ", " ++ id], s.globalVariables,
        by simp [assignValueCode, emit]⟩
  | binOp op l r =>
      obtain ⟨t, g, h⟩ := visitExpr_shape (Expr.binOp op l r) s
      exact ⟨t ++ ["    mov " ++ target ++ ", rax"], g,
        by simp [assignValueCode, h, emit]⟩
  | compare op l r => exact ⟨[], s.globalVariables, by simp [assignValueCode]⟩
  | call f args => exact ⟨[], s.globalVariables, by simp [assignValueCode]⟩

theorem visitAssignTarget_shape (value : Expr) (s : CompState) (target : String) :
    ∃ t g, visitAssignTarget value s target =
      { code := s.code ++ t
        localVariables := (addLocal target s).localVariables
        globalVariables := g
        currentFunction := s.currentFunction } := by
  obtain ⟨t, g, h⟩ := assignValueCode_shape target value (addLocal target s)
  refine ⟨t, g, ?_⟩
  rw [visitAssignTarget, h, addLocal_code, addLocal_currentFunction]

theorem visitAssign_shape : ∀ (targets : List String) (value : Expr) (s : CompState),
    ∃ t g lv, visitAssign targets value s =
      { code := s.code ++ t
        localVariables := lv
        globalVariables := g
        currentFunction := s.currentFunction } ∧
      ∀ y, y ∈ lv → y ∈ s.localVariables ∨ y ∈ targets
  | [], value, s =>
      ⟨[], s.globalVariables, s.localVariables, by simp [visitAssign],
        fun y hy => Or.inl hy⟩
  | target :: rest, value, s => by
      obtain ⟨t1, g1, h1⟩ := visitAssignTarget_shape value s target
      obtain ⟨t2, g2, lv, h2, hmem⟩ :=
        visitAssign_shape rest value (visitAssignTarget value s target)
      refine ⟨t1 ++ t2, g2, lv, ?_, ?_⟩
      · have : visitAssign (target :: rest) value s =
            visitAssign rest value (visitAssignTarget value s target) := rfl
        rw [this, h2, h1]
        simp
      · intro y hy
        rcases hmem y hy with hy2 | hy2
        · rw [h1] at hy2
          rcases addLocal_mem target y s hy2 with hy3 | hy3
          · exact Or.inl hy3
          · exact Or.inr (by simp [hy3])
        · exact Or.inr (List.mem_cons_of_mem _ hy2)

theorem returnValueCode_shape (value : Option Expr) (s : CompState) :
    ∃ t g, returnValueCode value s =
      { code := s.code ++ t
        localVariables := s.localVariables
        globalVariables := g
        currentFunction := s.currentFunction } := by
  cases value with
  | none => exact ⟨[], s.globalVariables, by simp [returnValueCode]⟩
  | some e =>
      cases e with
      | constant n =>
          exact ⟨["    mov rax, " ++ toString n], s.globalVariables,
            by simp [returnValueCode, emit]⟩
      | name id =>
          exact ⟨["    mov rax, " ++ id], s.globalVariables,
            by simp [returnValueCode, emit]⟩
      | binOp op l r =>
          obtain ⟨t, g, h⟩ := visitExpr_shape (Expr.binOp op l r) s
          exact ⟨t, g, by simp [returnValueCode, h]⟩
      | compare op l r => exact ⟨[], s.globalVariables, by simp [returnValueCode]⟩
      | call f args => exact ⟨[], s.globalVariables, by simp [returnValueCode]⟩

theorem visitReturn_shape (value : Option Expr) (s : CompState) :
    ∃ t g, visitReturn value s =
      { code := s.code ++ t
        localVariables := s.localVariables
        globalVariables := g
        currentFunction := s.currentFunction } := by
  obtain ⟨t, g, h⟩ := returnValueCode_shape value s
  exact ⟨t ++ ["    ret"], g, by simp [visitReturn, h, emit]⟩

theorem assignedTargets_cons (st : Stmt) (rest : List Stmt) :
    assignedTargets (st :: rest) = assignedTargets [st] ++ assignedTargets rest := by
  cases st <;> simp [assignedTargets]

theorem assignedTargets_append : ∀ (a b : List Stmt),
    assignedTargets (a ++ b) = assignedTargets a ++ assignedTargets b
  | [], b => by simp [assignedTargets]
  | st :: rest, b => by
      rw [List.cons_append, assignedTargets_cons, assignedTargets_append rest b,
        assignedTargets_cons st rest]
      simp

theorem visitStmt_ok_shape (st : Stmt) (s s' : CompState)
    (h : visitStmt st s = Except.ok s') :
    (∃ t, s'.code = s.code ++ t) ∧
    s'.currentFunction = s.currentFunction ∧
    (∀ y, y ∈ s'.localVariables → y ∈ s.localVariables ∨ y ∈ assignedTargets [st]) := by
  cases st with
  | assign targets value =>
      simp only [visitStmt, Except.ok.injEq] at h
      obtain ⟨t, g, lv, hshape, hmem⟩ := visitAssign_shape targets value s
      subst h
      rw [hshape]
      refine ⟨⟨t, rfl⟩, rfl, ?_⟩
      intro y hy
      rcases hmem y hy with hy2 | hy2
      · exact Or.inl hy2
      · exact Or.inr (by simp [assignedTargets, hy2])
  | ret value =>
      simp only [visitStmt, Except.ok.injEq] at h
      obtain ⟨t, g, hshape⟩ := visitReturn_shape value s
      subst h
      rw [hshape]
      exact ⟨⟨t, rfl⟩, rfl, fun y hy => Or.inl hy⟩
  | ifStmt test body orelse => simp [visitStmt] at h
  | exprStmt value =>
      simp only [visitStmt, Except.ok.injEq] at h
      obtain ⟨t, g, hshape⟩ := visitExpr_shape value s
      subst h
      rw [hshape]
      exact ⟨⟨t, rfl⟩, rfl, fun y hy => Or.inl hy⟩

theorem visitStmtList_ok_shape : ∀ (sts : List Stmt) (s s' : CompState),
    visitStmtList sts s = Except.ok s' →
    (∃ t, s'.code = s.code ++ t) ∧
    s'.currentFunction = s.currentFunction ∧
    (∀ y, y ∈ s'.localVariables → y ∈ s.localVariables ∨ y ∈ assignedTargets sts)
  | [], s, s', h => by
      simp only [visitStmtList, Except.ok.injEq] at h
      subst h
      exact ⟨⟨[], by simp⟩, rfl, fun y hy => Or.inl hy⟩
  | st :: rest, s, s', h => by
      cases hst : visitStmt st s with
      | error e => simp [visitStmtList, hst] at h
      | ok s1 =>
          simp only [visitStmtList, hst] at h
          obtain ⟨⟨t1, hc1⟩, hf1, hm1⟩ := visitStmt_ok_shape st s s1 hst
          obtain ⟨⟨t2, hc2⟩, hf2, hm2⟩ := visitStmtList_ok_shape rest s1 s' h
          refine ⟨⟨t1 ++ t2, by rw [hc2, hc1]; simp⟩, by rw [hf2, hf1], ?_⟩
          intro y hy
          rw [assignedTargets_cons]
          rcases hm2 y hy with hy2 | hy2
          · rcases hm1 y hy2 with hy3 | hy3
            · exact Or.inl hy3
            · exact Or.inr (List.mem_append_left _ hy3)
          · exact Or.inr (List.mem_append_right _ hy2)

theorem functionEntry_code (f : FunctionDef) (s : CompState) :
    (functionEntry f s).code =
      s.code ++ ["global " ++ f.name, f.name ++ ":", "    push rbp",
                 "    mov rbp, rsp"] := rfl

theorem visitFunctionDef_ok_code (f : FunctionDef) (s s' : CompState)
    (h : visitFunctionDef f s = Except.ok s') :
    ∃ t, s'.code = s.code ++ t := by
  unfold visitFunctionDef at h
  cases hb : visitStmtList f.body (functionEntry f s) with
  | error e => rw [hb] at h; simp at h
  | ok s1 =>
      rw [hb] at h
      simp only [Except.ok.injEq] at h
      obtain ⟨⟨t, hc⟩, _, _⟩ := visitStmtList_ok_shape f.body (functionEntry f s) s1 hb
      subst h
      refine ⟨["global " ++ f.name, f.name ++ ":", "    push rbp", "    mov rbp, rsp"]
        ++ t ++ ["    pop rbp", "    ret"], ?_⟩
      show (emitAll s1 ["    pop rbp", "    ret"]).code = _
      rw [emitAll_code, hc, functionEntry_code]
      simp

theorem visitModule_ok_code : ∀ (p : List FunctionDef) (s s' : CompState),
    visitModule p s = Except.ok s' → ∃ t, s'.code = s.code ++ t
  | [], s, s', h => by
      simp only [visitModule, Except.ok.injEq] at h
      subst h
      exact ⟨[], by simp⟩
  | f :: rest, s, s', h => by
      cases hf : visitFunctionDef f s with
      | error e => simp [visitModule, hf] at h
      | ok s1 =>
          simp only [visitModule, hf] at h
          obtain ⟨t1, h1⟩ := visitFunctionDef_ok_code f s s1 hf
          obtain ⟨t2, h2⟩ := visitModule_ok_code rest s1 s' h
          exact ⟨t1 ++ t2, by rw [h2, h1]; simp⟩

theorem compare_emitted (op : CmpOpKind) (l r : Expr) (s : CompState) :
    emittedBy (visitExpr (Expr.compare op l r)) s =
      ["    cmp rax, rcx", cmpJump op] ++ compareTail := by
  simp [emittedBy, visitExpr, emitAll]

/-- Claim C1: refuted in the code as written.  A unit with two Compare
constructs and no If compiles to text in which the label lines
comparison_true:, comparison_false: and end_comparison: each occur twice,
so generated labels are not textually distinct and the two control-flow
constructs share their labels. -/
theorem compare_labels_collide :
    ∃ out, compileList twoCompareProgram = Except.ok out ∧
      out.count "comparison_true:" = 2 ∧
      out.count "comparison_false:" = 2 ∧
      out.count "end_comparison:" = 2 := by
  exact ⟨_, rfl, by decide, by decide, by decide⟩

/-- Claim C2: refuted in the code as written.  Every Compare call site
emits one identical line block: the cmp instruction, the conditional
branch, and the fixed literal labels comparison_true / comparison_false /
end_comparison.  The emitted block is the same list at every call site
and for every pair of operand subtrees, so the labels are shared rather
than freshly generated, and no label of the form true_n, false_n or
end_n is produced. -/
theorem compare_labels_shared_across_callsites
    (op : CmpOpKind) (l r l2 r2 : Expr) (s s2 : CompState) :
    emittedBy (visitExpr (Expr.compare op l r)) s =
      ["    cmp rax, rcx", cmpJump op] ++ compareTail ∧
    emittedBy (visitExpr (Expr.compare op l r)) s =
      emittedBy (visitExpr (Expr.compare op l2 r2)) s2 ∧
    "comparison_true:" ∈ emittedBy (visitExpr (Expr.compare op l r)) s ∧
    "comparison_false:" ∈ emittedBy (visitExpr (Expr.compare op l r)) s ∧
    "end_comparison:" ∈ emittedBy (visitExpr (Expr.compare op l r)) s := by
  refine ⟨compare_emitted op l r s, ?_, ?_, ?_, ?_⟩
  · rw [compare_emitted, compare_emitted]
  · rw [compare_emitted]; simp [compareTail]
  · rw [compare_emitted]; simp [compareTail]
  · rw [compare_emitted]; simp [compareTail]

/-- Claim C3: refuted in the code as written.  Lowering a unit containing
one If emits the condition code and a jz to the shared literal label
else_block, and then aborts with AttributeError, because visit_If passes
the plain statement list to generic_visit.  No fresh else label, no then
branch code, no jump to an end label and no end label are ever emitted,
and compile returns no text. -/
theorem if_lowering_aborts_with_shared_label :
    compileList ifProgram = Except.error (CompileError.attributeError
      { code := ["section .text", "global f", "f:", "    push rbp", "    mov rbp, rsp",
                 "    ; If condition", "    ; Unknown variable c (adding to globals)",
                 "    jz else_block"]
        localVariables := []
        globalVariables := ["c"]
        currentFunction := some "f" }) := by rfl

/-- Claim C4: for BinaryOp(op, left, right) the emitted sequence is the
left operand code, then the single scratch move, then the right operand
code, then the operator instructions, so every instruction of the left
operand precedes every instruction of the right operand. -/
theorem binop_left_operand_code_precedes_right
    (op : BinOpKind) (l r : Expr) (s : CompState) :
    (visitExpr (Expr.binOp op l r) s).code =
      s.code ++ emittedBy (visitExpr l) s ++ ["    mov rbx, rax"]
        ++ emittedBy (visitExpr r) (emit (visitExpr l s) "    mov rbx, rax")
        ++ binOpInstrs op := by
  have hl := visitExpr_emittedBy l s
  have hr := visitExpr_emittedBy r (emit (visitExpr l s) "    mov rbx, rax")
  simp only [visitExpr]
  rw [emitAll_code, hr, emit_code, hl]

/-- Claim C5: name classification follows the branch order of visit_Name:
builtin constant first, then the local set, then the global set; an
unknown identifier is inserted into the global set and classified global,
and a name reference is never a compile error. -/
theorem name_resolution_order (s : CompState) (id : String) :
    (id ∈ builtins → classifyName s id = NameClass.builtinConstant ∧
       visitName id s = emit s ("    ; Built-in " ++ id)) ∧
    (id ∉ builtins → id ∈ s.localVariables →
       classifyName s id = NameClass.localVar ∧
       visitName id s = emit s ("    ; Local variable " ++ id)) ∧
    (id ∉ builtins → id ∉ s.localVariables → id ∈ s.globalVariables →
       classifyName s id = NameClass.globalVar ∧
       visitName id s = emit s ("    ; Global variable " ++ id)) ∧
    (id ∉ builtins → id ∉ s.localVariables → id ∉ s.globalVariables →
       classifyName s id = NameClass.globalVar ∧
       (visitName id s).globalVariables = s.globalVariables ++ [id] ∧
       visitName id s =
         emit { s with globalVariables := s.globalVariables ++ [id] }
           ("    ; Unknown variable " ++ id ++ " (adding to globals)")) ∧
    visitStmt (Stmt.exprStmt (Expr.name id)) s = Except.ok (visitName id s) := by
  refine ⟨?_, ?_, ?_, ?_, rfl⟩
  · intro h1
    exact ⟨by simp [classifyName, h1], by simp [visitName, h1]⟩
  · intro h1 h2
    exact ⟨by simp [classifyName, h1, h2], by simp [visitName, h1, h2]⟩
  · intro h1 h2 h3
    exact ⟨by simp [classifyName, h1, h2, h3], by simp [visitName, h1, h2, h3]⟩
  · intro h1 h2 h3
    refine ⟨by simp [classifyName, h1, h2, h3], ?_, by simp [visitName, h1, h2, h3]⟩
    simp [visitName, h1, h2, h3, emit]

/-- Witness for C5 at the unknown-name case: a fresh identifier in the
constructor state is classified global and inserted into the global set. -/
theorem name_resolution_order_witness :
    classifyName initState "y" = NameClass.globalVar ∧
    (visitName "y" initState).globalVariables =
      initState.globalVariables ++ ["y"] := by
  have h := (name_resolution_order initState "y").2.2.2.1
    (by decide) (by decide) (by decide)
  exact ⟨h.1, h.2.1⟩

/-- Claim C6: refuted in the code as written.  A unit containing a Call
node, a node kind with no lowering rule, does not abort: the fallback
generic_visit silently traverses the func and argument children (their
names even leak into the global set) and compilation completes normally
with output text. -/
theorem unsupported_call_node_compiles_silently :
    compileList callProgram = Except.ok
      ["section .text", "global f", "f:", "    push rbp", "    mov rbp, rsp",
       "    ; Unknown variable n (adding to globals)", "    mov rbx, rax",
       "    ; Unknown variable fact (adding to globals)", "    ; Global variable n",
       "    imul rax, rbx", "    ret", "    pop rbp", "    ret"] := by rfl

/-- Claim C7: the local set is reset to empty at the start of each
function; after lowering one function, a name that is not an assignment
target of a second function is never in the local set while lowering
that second function, so it cannot be classified Local there. -/
theorem local_scope_reset_across_functions
    (fA fB : FunctionDef) (s0 s1 s3 : CompState) (x : String)
    (pre rest : List Stmt)
    (hA : visitFunctionDef fA s0 = Except.ok s1)
    (hxA : x ∈ assignedTargets fA.body)
    (hbody : fB.body = pre ++ rest)
    (hpre : visitStmtList pre (functionEntry fB s1) = Except.ok s3)
    (hxB : x ∉ assignedTargets fB.body) :
    (functionEntry fB s1).localVariables = [] ∧
    x ∉ s3.localVariables ∧
    classifyName s3 x ≠ NameClass.localVar := by
  have hentry : (functionEntry fB s1).localVariables = [] := rfl
  obtain ⟨⟨t, hc⟩, hcf, hmem⟩ := visitStmtList_ok_shape pre (functionEntry fB s1) s3 hpre
  have hxloc : x ∉ s3.localVariables := by
    intro hx
    rcases hmem x hx with h | h
    · rw [hentry] at h
      exact absurd h (List.not_mem_nil x)
    · apply hxB
      rw [hbody, assignedTargets_append]
      exact List.mem_append_left _ h
  refine ⟨hentry, hxloc, ?_⟩
  by_cases h1 : x ∈ builtins
  · simp [classifyName, h1]
  by_cases h3 : x ∈ s3.globalVariables
  · simp [classifyName, h1, hxloc, h3]
  · simp [classifyName, h1, hxloc, h3]

/-- Witness for C7: lowering def a(): x = 1 and then def b(): return x,
the name x assigned in the first function is not local while lowering
the second. -/
theorem local_scope_reset_across_functions_witness :
    (functionEntry fB0 s10).localVariables = [] ∧
    "x" ∉ s30.localVariables ∧
    classifyName s30 "x" ≠ NameClass.localVar :=
  local_scope_reset_across_functions fA0 fB0 initState s10 s30 "x"
    [Stmt.ret (some (Expr.name "x"))] []
    rfl (by decide) rfl rfl (by decide)

/-- Claim C8: visit_Assign inserts the target into the local set before
the right-hand side is handled, so in x = x + k the right-hand occurrence
of x is emitted as a local variable reference and x classifies Local. -/
theorem assign_target_local_before_rhs (s : CompState) (x : String) (k : Int)
    (hx : x ∉ builtins) :
    (∀ value : Expr, visitStmt (Stmt.assign [x] value) s =
        Except.ok (assignValueCode x value (addLocal x s))) ∧
    x ∈ (addLocal x s).localVariables ∧
    classifyName (addLocal x s) x = NameClass.localVar ∧
    visitStmt (Stmt.assign [x] (Expr.binOp BinOpKind.add (Expr.name x) (Expr.constant k))) s =
      Except.ok
        { code := s.code ++ ["    ; Local variable " ++ x, "    mov rbx, rax",
                             "    add rax, rbx", "    mov " ++ x ++ ", rax"]
          localVariables := (addLocal x s).localVariables
          globalVariables := s.globalVariables
          currentFunction := s.currentFunction } := by
  have hmem := addLocal_self_mem x s
  refine ⟨fun value => rfl, hmem, by simp [classifyName, hx, hmem], ?_⟩
  simp [visitStmt, visitAssign, visitAssignTarget, assignValueCode, visitExpr,
    visitName, binOpInstrs, hx, hmem, emit, emitAll, addLocal_code,
    addLocal_globalVariables, addLocal_currentFunction]

/-- Witness for C8 at the constructor state with x = x + 1. -/
theorem assign_target_local_before_rhs_witness :
    classifyName (addLocal "x" initState) "x" = NameClass.localVar :=
  (assign_target_local_before_rhs initState "x" 1 (by decide)).2.2.1

/-- Claim C9: the optimization pipeline is apply_vcal followed by
apply_lpit; both passes leave the instruction sequence unchanged, so any
observable semantics of the optimized sequence agrees with that of the
input sequence. -/
theorem optimize_preserves_semantics :
    (∀ {α : Type} (run : List String → α) (S : List String),
        run (optimize S) = run S) ∧
    (∀ S : List String, applyVcal S = S) ∧
    (∀ S : List String, applyLpit S = S) :=
  ⟨fun _ _ => rfl, fun _ => rfl, fun _ => rfl⟩

/-- Claim C10: the text compile returns begins with the line
section .text (the constructor seeds the code list with it), and every
lowering step only extends the already emitted line list. -/
theorem compile_header_and_append_only :
    (∀ (p : List FunctionDef) (out : String), compile p = Except.ok out →
       ∃ r, out = "section .text" ++ r ∧ (r = "" ∨ ∃ r2, r = "\n" ++ r2)) ∧
    (∀ (st : Stmt) (s s' : CompState), visitStmt st s = Except.ok s' →
       ∃ t, s'.code = s.code ++ t) ∧
    (∀ (f : FunctionDef) (s s' : CompState), visitFunctionDef f s = Except.ok s' →
       ∃ t, s'.code = s.code ++ t) ∧
    (∀ (e : Expr) (s : CompState), ∃ t, (visitExpr e s).code = s.code ++ t) := by
  refine ⟨?_, ?_, visitFunctionDef_ok_code, ?_⟩
  · intro p out h
    cases hm : visitModule p initState with
    | error e => rw [compile, hm] at h; simp [Except.map] at h
    | ok s' =>
        rw [compile, hm] at h
        simp only [Except.map, Except.ok.injEq] at h
        obtain ⟨t, hc⟩ := visitModule_ok_code p initState s' hm
        subst h
        rw [hc]
        cases t with
        | nil => exact ⟨"", by decide, Or.inl rfl⟩
        | cons a t2 =>
            refine ⟨"\n" ++ joinLines (a :: t2), ?_, Or.inr ⟨joinLines (a :: t2), rfl⟩⟩
            show joinLines ("section .text" :: a :: t2) = _
            rw [joinLines]
            · exact String.append_assoc "section .text" "\n" (joinLines (a :: t2))
            · simp
  · intro st s s' h
    exact (visitStmt_ok_shape st s s' h).1
  · intro e s
    obtain ⟨t, g, hshape⟩ := visitExpr_shape e s
    exact ⟨t, by rw [hshape]⟩

/-- Witness for C10 on a one-function unit with an empty body. -/
theorem compile_header_and_append_only_witness :
    ∃ r, "section .text\nglobal f\nf:\n    push rbp\n    mov rbp, rsp\n    pop rbp\n    ret" =
        "section .text" ++ r ∧ (r = "" ∨ ∃ r2, r = "\n" ++ r2) :=
  compile_header_and_append_only.1 [{ name := "f", args := [], body := [] }] _ rfl

end PyASM
